import Mathlib

set_option maxRecDepth 100000

/-!
Verification development for the llmimage question-to-illustrated-answer
pipeline (app.js, viewer.js and the legacy inline script).

The JavaScript source is shallowly embedded: every remote interaction
(HEAD size probe, image download, SVG rasterization, model calls) is an
explicit input to the embedded function, so each source function becomes a
pure Lean function over those inputs.  String-level behaviour (lowercasing,
trimming, splitting on commas, first-occurrence replacement, the lazy
regex scans for triple-bracket tokens and HTML tags) is modelled over
`List Char` with executable definitions.
-/

/-! ## JavaScript string primitives -/

/-- Model of JavaScript `String.prototype.toLowerCase` (ASCII-relevant part). -/
def jsToLower (s : String) : String :=
  String.mk (s.toList.map Char.toLower)

/-- Model of JavaScript `String.prototype.trim`: drop whitespace from both ends. -/
def jsTrim (s : String) : String :=
  String.mk (((s.toList.dropWhile Char.isWhitespace).reverse.dropWhile Char.isWhitespace).reverse)

/-- Here `listContains l sub` models JavaScript `l.includes(sub)` on character lists. -/
def listContains (l sub : List Char) : Bool :=
  match l with
  | [] => sub.isEmpty
  | _ :: rest => sub.isPrefixOf l || listContains rest sub

/-- Model of JavaScript `a.includes(b)` for strings. -/
def jsIncludes (a b : String) : Bool :=
  listContains a.toList b.toList

/-- Model of JavaScript `a.endsWith(b)`. -/
def jsEndsWith (a b : String) : Bool :=
  b.toList.isSuffixOf a.toList

/-- Model of JavaScript `s.replace(pat, rep)` with a plain-string pattern:
replace the first occurrence of `pat` only; leave `s` unchanged when `pat`
does not occur. -/
def replaceFirstChars (pat rep : List Char) : List Char → List Char
  | [] => if pat.isPrefixOf ([] : List Char) then rep else []
  | c :: rest =>
    if pat.isPrefixOf (c :: rest) then rep ++ (c :: rest).drop pat.length
    else c :: replaceFirstChars pat rep rest

/-- String wrapper for `replaceFirstChars`. -/
def jsReplaceFirst (s pat rep : String) : String :=
  String.mk (replaceFirstChars pat.toList rep.toList s.toList)

/-- Model of JavaScript `s.split(sep)` for a one-character separator:
always returns at least one (possibly empty) piece. -/
def splitChars (sep : Char) : List Char → List (List Char)
  | [] => [[]]
  | c :: rest =>
    if c = sep then [] :: splitChars sep rest
    else
      match splitChars sep rest with
      | r :: rs => (c :: r) :: rs
      | [] => [[c]]

/-- String wrapper for `splitChars`. -/
def jsSplit (sep : Char) (s : String) : List String :=
  (splitChars sep s.toList).map String.mk

/-- A JavaScript regex word character (`\w`): ASCII letter, digit or underscore. -/
def isWordChar (c : Char) : Bool :=
  c.isAlphanum || c = Char.ofNat 95

/-- Model of `s.replace(/\.\w+$/, '')`: drop a trailing dot-plus-word-chars
extension when present, otherwise leave the list unchanged. -/
def stripExtChars (l : List Char) : List Char :=
  let rev := l.reverse
  let w := rev.takeWhile isWordChar
  if w.isEmpty then l
  else
    match rev.drop w.length with
    | c :: restRev => if c = Char.ofNat 46 then restRev.reverse else l
    | [] => l

/-- String wrapper for `stripExtChars`. -/
def stripExt (s : String) : String :=
  String.mk (stripExtChars s.toList)

/-- Model of `title.replace(/\s+/g, '_')`: each maximal run of whitespace
becomes a single underscore.  The flag records whether the previous
character was inside a whitespace run. -/
def collapseWsAux : Bool → List Char → List Char
  | _, [] => []
  | inRun, c :: rest =>
    if c.isWhitespace then
      if inRun then collapseWsAux true rest
      else Char.ofNat 95 :: collapseWsAux true rest
    else c :: collapseWsAux false rest

/-- Model of `img.title.replace(/\s+/g, '_').toLowerCase()` from `processImages`. -/
def normalizeFileName (title : String) : String :=
  jsToLower (String.mk (collapseWsAux false title.toList))

/-- Model of `replace(/\r?\n|\r/g, ' ')`: newlines (CRLF, LF or lone CR)
become single spaces. -/
def stripNewlines : List Char → List Char
  | [] => []
  | c :: rest =>
    if c = Char.ofNat 13 then
      match rest with
      | c2 :: rest2 => if c2 = Char.ofNat 10 then Char.ofNat 32 :: stripNewlines rest2
                       else Char.ofNat 32 :: stripNewlines (c2 :: rest2)
      | [] => [Char.ofNat 32]
    else if c = Char.ofNat 10 then Char.ofNat 32 :: stripNewlines rest
    else c :: stripNewlines rest

/-- Model of quote escaping in `formatResponse`: double quotes become
`&quot;` and apostrophes become `&#39;`. -/
def escapeQuotes : List Char → List Char
  | [] => []
  | c :: rest =>
    if c = Char.ofNat 34 then ("&quot;".toList) ++ escapeQuotes rest
    else if c = Char.ofNat 39 then ("&#39;".toList) ++ escapeQuotes rest
    else c :: escapeQuotes rest

/-- Helper for `stripTags`: scan forward for the first closing angle
bracket before any newline, returning the remainder after it. -/
def findGt : List Char → Option (List Char)
  | [] => none
  | c :: rest =>
    if c = Char.ofNat 62 then some rest
    else if c = Char.ofNat 10 ∨ c = Char.ofNat 13 then none
    else findGt rest

/-- Fuel-driven scan for `replace(/<.*?>/g, '')`: remove each lazily
matched angle-bracket span that closes on the same line. -/
def stripTagsAux : Nat → List Char → List Char
  | 0, l => l
  | fuel + 1, l =>
    match l with
    | [] => []
    | c :: rest =>
      if c = Char.ofNat 60 then
        match findGt rest with
        | some after => stripTagsAux fuel after
        | none => c :: stripTagsAux fuel rest
      else c :: stripTagsAux fuel rest

/-- Model of `s.replace(/<.*?>/g, '')` used to remove HTML tags from
Wikimedia metadata fields. -/
def stripTags (s : String) : String :=
  String.mk (stripTagsAux s.toList.length s.toList)

/-! ## Data model -/

/-- Metadata record returned by `getImageDetails` (an `ImageDetail`). -/
structure ImageDetail where
  url : String
  altText : String
  title : String
  license : String
  attribution : String
deriving DecidableEq, Repr

/-- Outcome of the `checkImageSize` HEAD probe against an image URL. -/
inductive ProbeResult where
  /-- The HEAD request failed or returned a non-ok status (or the header
  was unparsable): `checkImageSize` returns `false`. -/
  | failed : ProbeResult
  /-- The response carried no Content-Length header: proceed optimistically. -/
  | noLength : ProbeResult
  /-- The response reported this many bytes. -/
  | length (bytes : Nat) : ProbeResult
deriving DecidableEq, Repr

/-- One candidate image together with the outcomes of its remote
interactions inside the admission loop: the size probe, and the
download/rasterization producing a base64 data URL (`none` models a thrown
and caught error). -/
structure ImageEnv where
  detail : ImageDetail
  probe : ProbeResult
  payload : Option String
deriving DecidableEq, Repr

/-- An `ImageDetail` that survived admission: title normalized, base64
payload attached (a `ProcessedImage`). -/
structure ProcessedImage where
  url : String
  altText : String
  title : String
  license : String
  attribution : String
  base64 : String
deriving DecidableEq, Repr

/-- The numeric policy of the admission pipeline.  `app.js` uses
17 MiB / 15 images / 1 MiB; the legacy inline script uses
15 MiB / 8 images / 0.5 MiB; both cap flattened search results at 15. -/
structure AdmissionConfig where
  maxPayloadBytes : Nat
  maxImages : Nat
  perImageLimitBytes : Nat
  searchCap : Nat
deriving DecidableEq, Repr

/-- The constants of `app.js`. -/
def appConfig : AdmissionConfig :=
  { maxPayloadBytes := 17 * 1024 * 1024
    maxImages := 15
    perImageLimitBytes := 1024 * 1024
    searchCap := 15 }

/-- The constants of the legacy inline script. -/
def legacyConfig : AdmissionConfig :=
  { maxPayloadBytes := 15 * 1024 * 1024
    maxImages := 8
    perImageLimitBytes := 512 * 1024
    searchCap := 15 }

/-! ## Admission pipeline (`processImages`) -/

/-- Embedding of `ImageProcessor.checkImageSize`: `false` on probe failure, `true` when
no Content-Length is reported, otherwise compare the reported size against
the per-image ceiling (`sizeInBytes / 2^20 ≤ limitMB` exactly iff
`bytes ≤ perImageLimitBytes`). -/
def checkImageSize (cfg : AdmissionConfig) : ProbeResult → Bool
  | ProbeResult.failed => false
  | ProbeResult.noLength => true
  | ProbeResult.length n => n ≤ cfg.perImageLimitBytes

/-- Embedding of `ImageProcessor.estimateBase64Size`: take the part after the first
comma when it is a non-empty piece (`split(',')[1] || base64String`),
then `Math.ceil(len * 3 / 4)`. -/
def estimateBase64Size (s : String) : Nat :=
  let parts := splitChars (Char.ofNat 44) s.toList
  let d := match parts.get? 1 with
    | some p => if p.isEmpty then s.toList else p
    | none => s.toList
  (d.length * 3 + 3) / 4

/-- The three per-image skip checks that precede the budget check: not a
GIF (case-insensitive on the URL), size probe passed, and the
download/rasterization did not throw. -/
def admissible (cfg : AdmissionConfig) (e : ImageEnv) : Bool :=
  !(jsEndsWith (jsToLower e.detail.url) (".gif")) &&
  checkImageSize cfg e.probe &&
  e.payload.isSome

/-- The estimated byte size of an admissible candidate's payload. -/
def envSize (e : ImageEnv) : Nat :=
  estimateBase64Size (e.payload.getD (""))

/-- Build the `ProcessedImage` from an admitted candidate: the title is
normalized, `.svg` is renamed to `.png` when the URL ends in `.svg`
(case-sensitive, as in the source), and the base64 payload is attached. -/
def admitOne (e : ImageEnv) : ProcessedImage :=
  let fileName := normalizeFileName e.detail.title
  { url := e.detail.url
    altText := e.detail.altText
    title := if jsEndsWith e.detail.url (".svg") then
               jsReplaceFirst fileName (".svg") (".png")
             else fileName
    license := e.detail.license
    attribution := e.detail.attribution
    base64 := e.payload.getD ("") }

/-- The sequential admission loop of `processImages`: greedy in order,
carrying the running payload-size accumulator; a candidate failing any
check (or whose estimate would push the accumulator over the budget) is
skipped and evaluation continues. -/
def processImagesAux (cfg : AdmissionConfig) :
    List ImageEnv → Nat → List ProcessedImage × Nat
  | [], total => ([], total)
  | e :: rest, total =>
    if admissible cfg e then
      if total + envSize e > cfg.maxPayloadBytes then processImagesAux cfg rest total
      else
        let r := processImagesAux cfg rest (total + envSize e)
        (admitOne e :: r.1, r.2)
    else processImagesAux cfg rest total

/-- The candidates the loop admits, in evaluation order (mirror of
`processImagesAux` returning the surviving `ImageEnv`s). -/
def admittedEnvs (cfg : AdmissionConfig) : List ImageEnv → Nat → List ImageEnv
  | [], _ => []
  | e :: rest, total =>
    if admissible cfg e then
      if total + envSize e > cfg.maxPayloadBytes then admittedEnvs cfg rest total
      else e :: admittedEnvs cfg rest (total + envSize e)
    else admittedEnvs cfg rest total

/-- Embedding of `processImages`: run the admission loop from an empty accumulator and
apply the post-loop `splice(maxImages)` truncation. -/
def processImages (cfg : AdmissionConfig) (envs : List ImageEnv) : List ProcessedImage :=
  if (processImagesAux cfg envs 0).1.length > cfg.maxImages then
    (processImagesAux cfg envs 0).1.take cfg.maxImages
  else (processImagesAux cfg envs 0).1

/-! ## Model invoker (`GeminiAPI.analyzeImages` / `getSearchTerms`) -/

/-- Outcome of one network call attempt (relay or direct), as observed by
the caller: a successfully parsed reply body, or any failure (transport
error, non-ok status, malformed body). -/
inductive CallResult where
  | ok (body : String) : CallResult
  | fail (msg : String) : CallResult
deriving DecidableEq, Repr

/-- Observable result of a model invocation. -/
inductive GeminiOutcome where
  /-- A reply body was obtained. -/
  | success (body : String) : GeminiOutcome
  /-- The direct path was reached with an empty API key: the call throws
  immediately, without issuing the direct network request. -/
  | keyMissing : GeminiOutcome
  /-- The direct attempt was made and failed; its error propagates. -/
  | apiError (msg : String) : GeminiOutcome
deriving DecidableEq, Repr

/-- The direct-path section shared by `getSearchTerms` and
`analyzeImages`: require a non-empty API key before any request, then
report the direct call's outcome. -/
def directCall (apiKey : String) (directResult : CallResult) : GeminiOutcome :=
  if apiKey = "" then GeminiOutcome.keyMissing
  else
    match directResult with
    | CallResult.ok body => GeminiOutcome.success body
    | CallResult.fail msg => GeminiOutcome.apiError msg

/-- Embedding of the `GeminiAPI.analyzeImages` control flow: when the proxy is enabled try
it first and return its body on success, falling through to the direct
section on any proxy failure; when the proxy is disabled go directly to
the direct section. -/
def analyzeImagesCall (usingProxy : Bool) (proxyResult : CallResult)
    (apiKey : String) (directResult : CallResult) : GeminiOutcome :=
  if usingProxy then
    match proxyResult with
    | CallResult.ok body => GeminiOutcome.success body
    | CallResult.fail _ => directCall apiKey directResult
  else directCall apiKey directResult

/-- The ModelInvoker resilience contract written from the specification
text: attempt the relay path first when enabled; on any relay failure fall
back to the direct path; a direct attempt without a credential fails
immediately with a credential-required error and never consults the direct
network outcome; with the relay disabled only the direct path is
attempted. -/
def modelInvokerSpecPath (relayEnabled : Bool) (relayOutcome : CallResult)
    (credential : String) (directOutcome : CallResult) : GeminiOutcome :=
  if relayEnabled then
    match relayOutcome with
    | CallResult.ok body => GeminiOutcome.success body
    | CallResult.fail _ =>
      if credential = "" then GeminiOutcome.keyMissing
      else
        match directOutcome with
        | CallResult.ok body => GeminiOutcome.success body
        | CallResult.fail msg => GeminiOutcome.apiError msg
  else
    if credential = "" then GeminiOutcome.keyMissing
    else
      match directOutcome with
      | CallResult.ok body => GeminiOutcome.success body
      | CallResult.fail msg => GeminiOutcome.apiError msg

/-- Embedding of the `getSearchTerms` reply parsing: trim the body, split on commas, trim
each piece. -/
def parseSearchTerms (body : String) : List String :=
  (jsSplit (Char.ofNat 44) (jsTrim body)).map jsTrim

/-- Observable result of `GeminiAPI.getSearchTerms`. -/
inductive TermsOutcome where
  | success (terms : List String) : TermsOutcome
  | keyMissing : TermsOutcome
  | apiError (msg : String) : TermsOutcome
deriving DecidableEq, Repr

/-- Embedding of `GeminiAPI.getSearchTerms`: same proxy-then-direct control flow as
`analyzeImagesCall`, then parse the reply body into search terms. -/
def getSearchTermsCall (usingProxy : Bool) (proxyResult : CallResult)
    (apiKey : String) (directResult : CallResult) : TermsOutcome :=
  match analyzeImagesCall usingProxy proxyResult apiKey directResult with
  | GeminiOutcome.success body => TermsOutcome.success (parseSearchTerms body)
  | GeminiOutcome.keyMissing => TermsOutcome.keyMissing
  | GeminiOutcome.apiError msg => TermsOutcome.apiError msg

/-! ## Question-processing run (`AppController.processQuestion`) -/

/-- A search hit from `WikimediaAPI.searchImages` (`{title, pageId}`). -/
structure CandidateRef where
  title : String
  pageId : Nat
deriving DecidableEq, Repr

/-- Observable outcome of the post-search part of `processQuestion`. -/
inductive RunResult where
  | error (msg : String) : RunResult
  /-- The vision model was invoked with these processed images and
  returned this answer text. -/
  | answered (images : List ProcessedImage) (answer : String) : RunResult
deriving DecidableEq, Repr

/-- The exact message thrown when the flattened search results are empty. -/
def noImagesMsg : String :=
  "No images found on Wikimedia for the given search terms"

/-- Flatten the per-term search results and apply the global cap
(`slice(0, 15)` when more than the cap). -/
def cappedResults (cfg : AdmissionConfig) (searchResults : List (List CandidateRef)) :
    List CandidateRef :=
  let flat := searchResults.flatten
  if flat.length > cfg.searchCap then flat.take cfg.searchCap else flat

/-- Detail-fetch plus per-image admission environments for the capped
candidates: `getImageDetails` returning `null` (modelled as `none`) is
filtered out with `filter(Boolean)`. -/
def pipelineEnvs (cfg : AdmissionConfig) (searchResults : List (List CandidateRef))
    (fetchEnv : CandidateRef → Option ImageEnv) : List ImageEnv :=
  ((cappedResults cfg searchResults).map fetchEnv).reduceOption

/-- The post-search stages of `processQuestion`: flatten and cap search
results, abort with `noImagesMsg` when zero candidates were found,
otherwise fetch details (dropping failures), run the admission pipeline,
and invoke the vision model on whatever survives.  `fetchEnv` bundles the
remote outcomes of detail fetch, probe and download per candidate;
`modelReply` is the vision model's answer text. -/
def processQuestionRun (cfg : AdmissionConfig) (searchResults : List (List CandidateRef))
    (fetchEnv : CandidateRef → Option ImageEnv) (modelReply : String) : RunResult :=
  if (cappedResults cfg searchResults).length = 0 then RunResult.error noImagesMsg
  else RunResult.answered (processImages cfg (pipelineEnvs cfg searchResults fetchEnv)) modelReply

/-! ## Placeholder extraction and substitution (`formatResponse`) -/

/-- Helper for token extraction: after an opening `[[[`, scan lazily for
the first `]]]` on the same line, returning the enclosed characters and
the remainder after the close.  `none` when no close occurs before a
newline or the end of input (the regex dot matches neither `\n` nor `\r`). -/
def findClose : List Char → Option (List Char × List Char)
  | ']' :: ']' :: ']' :: rest => some ([], rest)
  | c :: rest =>
    if c = Char.ofNat 10 ∨ c = Char.ofNat 13 then none
    else match findClose rest with
      | some (inner, after) => some (c :: inner, after)
      | none => none
  | [] => none

/-- Fuel-driven scan of `/\[\[\[(.*?)\]\]\]/g` over the reply: at each
position, a `[[[` with a same-line close yields a match (full token text
and captured filename) and scanning resumes after the match; otherwise
scanning advances one character, exactly as the regex engine does. -/
def extractAux : Nat → List Char → List (String × String)
  | 0, _ => []
  | _ + 1, [] => []
  | fuel + 1, '[' :: '[' :: '[' :: rest =>
    (match findClose rest with
     | some (inner, after) =>
       (String.mk ('[' :: '[' :: '[' :: (inner ++ (']' :: ']' :: ']' :: []))),
        String.mk inner) :: extractAux fuel after
     | none => extractAux fuel ('[' :: '[' :: rest))
  | fuel + 1, _ :: rest => extractAux fuel rest

/-- All placeholder-token matches of the reply, in order: pairs of the
full `[[[...]]]` token text and the captured filename. -/
def extractTokens (l : List Char) : List (String × String) :=
  extractAux l.length l

/-- JavaScript object insertion with a string key: an existing key keeps
its position and takes the new value; a new key is appended. -/
def insertEntry : List (String × String) → String × String → List (String × String)
  | [], e => [e]
  | (k0, v0) :: rest, (k, v) =>
    if k0 = k then (k0, v) :: rest else (k0, v0) :: insertEntry rest (k, v)

/-- The `imagePlaceholders` object: fold the matches into an
insertion-ordered map from token text to captured filename, later
occurrences of the same token text overwriting the value. -/
def buildPlaceholderMap (ms : List (String × String)) : List (String × String) :=
  ms.foldl insertEntry []

/-- The per-image match predicate of `formatResponse`: lowercase the
stored title, lowercase and trim the referenced filename, then accept on
exact equality, containment in either direction, or equality after
stripping a trailing extension. -/
def imageTitleMatches (title fn : String) : Bool :=
  let n := jsTrim (jsToLower fn)
  let t := jsToLower title
  (t = n : Bool) || jsIncludes t n || jsIncludes n t || (stripExt t = stripExt n : Bool)

/-- Embedding of `processedImages.find(...)`: the first processed image whose title
matches the referenced filename. -/
def findMatchingImage (ps : List ProcessedImage) (fn : String) : Option ProcessedImage :=
  ps.find? (fun img => imageTitleMatches img.title fn)

/-- The cleaned alt text embedded in the figure markup: fall back to a
generic description when empty, replace newlines with spaces and escape
quote characters. -/
def cleanAltText (altText : String) : String :=
  let base := if altText = "" then ("Image from Wikimedia Commons") else altText
  String.mk (escapeQuotes (stripNewlines base.toList))

/-- The figure caption: a source line (with the license appended when it
is present and not the unknown sentinel), then an attribution line only
when the attribution is non-empty after trimming; lines joined with a
break tag.  The DOM entity-decoding round trip of the source is the
identity here. -/
def figureCaption (img : ProcessedImage) : String :=
  let licenseLine :=
    if img.license ≠ "" ∧ img.license ≠ "Unknown license" then
      "<small>Source: Wikimedia Commons - " ++ img.license ++ "</small>"
    else ("<small>Source: Wikimedia Commons</small>")
  if img.attribution ≠ "" ∧ jsTrim img.attribution ≠ "" then
    licenseLine ++ "<br>" ++ "<small>Attribution: " ++ img.attribution ++ "</small>"
  else licenseLine

/-- The figure markup substituted for a resolved placeholder (the
template literal of `formatResponse`, which embeds the original image URL,
the cleaned alt text and the caption). -/
def imgTag (img : ProcessedImage) : String :=
  "<figure style=\"margin: 20px 0;\">\n                    <img src=\"" ++ img.url ++
  "\" alt=\"" ++ cleanAltText img.altText ++
  "\" style=\"width:100%; border-radius:5px; box-shadow:0 2px 8px rgba(0,0,0,0.1);\">\n                    <figcaption style=\"font-style:italic; font-size:0.9em; color:#555; margin-top:5px;\">\n                        " ++
  figureCaption img ++
  "\n                    </figcaption>\n                </figure>"

/-- The body of the substitution loop for one map entry: when the
referenced filename resolves to a processed image, replace the first
occurrence of the token text with the figure markup; otherwise leave the
text unchanged (the dangling token stays). -/
def applyPlaceholder (ps : List ProcessedImage) (acc : String) (entry : String × String) : String :=
  match findMatchingImage ps entry.2 with
  | some img => jsReplaceFirst acc entry.1 (imgTag img)
  | none => acc

/-- Fold the substitution over the placeholder map entries in insertion
order. -/
def substitutePlaceholders (ps : List ProcessedImage) (text : String)
    (entries : List (String × String)) : String :=
  entries.foldl (applyPlaceholder ps) text

/-- Embedding of `formatResponse` up to the external markdown renderer: extract
placeholder tokens from the model reply, build the placeholder map, and
substitute resolved tokens. -/
def formatResponse (geminiResponse : String) (processedImages : List ProcessedImage) : String :=
  substitutePlaceholders processedImages geminiResponse
    (buildPlaceholderMap (extractTokens geminiResponse.toList))

/-! ## Alt text derivation (`getImageDetails`) -/

/-- The extmetadata fields consulted for the alt text.  A field is used
only when present with a truthy (non-empty) value, matching the
JavaScript `metadata.F && metadata.F.value` guards. -/
structure MetaBag where
  imageDescription : Option String
  objectName : Option String
  categories : Option String
deriving DecidableEq, Repr

/-- Truthiness of an optional metadata value. -/
def truthy (o : Option String) : Bool :=
  o.getD ("") ≠ ""

/-- The alt-text priority chain of `getImageDetails`: structured image
description (tags stripped), else object name (used as is), else category
text (tags stripped), else the title with the first `File:` removed. -/
def chainAltText (md : MetaBag) (imageTitle : String) : String :=
  if truthy md.imageDescription then stripTags (md.imageDescription.getD (""))
  else if truthy md.objectName then md.objectName.getD ("")
  else if truthy md.categories then stripTags (md.categories.getD (""))
  else jsReplaceFirst imageTitle ("File:") ("")

/-- The clean-up step of `getImageDetails`: trim, keep the first 200
characters, and append an ellipsis exactly when the kept part has length
200. -/
def truncateAltText (s : String) : String :=
  let t := (jsTrim s).toList.take 200
  if t.length = 200 then String.mk t ++ "..." else String.mk t

/-- The `altText` field produced by `getImageDetails` for a metadata bag
and page title. -/
def getImageDetailsAltText (md : MetaBag) (imageTitle : String) : String :=
  truncateAltText (chainAltText md imageTitle)

/-! ## Helper lemmas -/

/-- Splitting never returns the empty list of pieces. -/
theorem splitChars_ne_nil (sep : Char) (l : List Char) : splitChars sep l ≠ [] := by
  induction l with
  | nil => simp [splitChars]
  | cons c rest ih =>
    rw [splitChars]
    by_cases h : c = sep
    · simp [h]
    · rw [if_neg h]
      cases hr : splitChars sep rest with
      | nil => exact absurd hr ih
      | cons r rs => simp

/-- Splitting a list that does not contain the separator yields the
single whole piece. -/
theorem splitChars_of_not_mem (sep : Char) (l : List Char) (h : sep ∉ l) :
    splitChars sep l = [l] := by
  induction l with
  | nil => rfl
  | cons c rest ih =>
    simp only [List.mem_cons, not_or] at h
    rw [splitChars, if_neg (fun hc => h.1 (by rw [hc])), ih h.2]

/-- The byte estimate of a one-character-repeated base64 string with no
comma: the whole string is measured. -/
theorem estimateBase64Size_replicate (n : Nat) (c : Char) (h : c ≠ Char.ofNat 44) :
    estimateBase64Size (String.mk (List.replicate n c)) = (n * 3 + 3) / 4 := by
  unfold estimateBase64Size
  have hmem : Char.ofNat 44 ∉ List.replicate n c := fun hm =>
    h ((List.eq_of_mem_replicate hm).symm)
  have hl : (String.mk (List.replicate n c)).toList = List.replicate n c := rfl
  rw [hl, splitChars_of_not_mem _ _ hmem]
  simp [List.length_replicate]

/-- The running accumulator of the admission loop never exceeds the
budget when it starts at or below it. -/
theorem processImagesAux_total_le (cfg : AdmissionConfig) (l : List ImageEnv) :
    ∀ total, total ≤ cfg.maxPayloadBytes →
      (processImagesAux cfg l total).2 ≤ cfg.maxPayloadBytes := by
  induction l with
  | nil => intro total h; exact h
  | cons e rest ih =>
    intro total h
    rw [processImagesAux]
    by_cases ha : admissible cfg e
    · rw [if_pos ha]
      by_cases hb : total + envSize e > cfg.maxPayloadBytes
      · rw [if_pos hb]; exact ih total h
      · rw [if_neg hb]
        exact ih (total + envSize e) (Nat.le_of_not_lt hb)
    · rw [if_neg ha]; exact ih total h

/-- The processed images produced by the loop are exactly the admitted
candidates, transformed by `admitOne`, in order. -/
theorem processImagesAux_fst_eq (cfg : AdmissionConfig) (l : List ImageEnv) :
    ∀ total, (processImagesAux cfg l total).1 =
      (admittedEnvs cfg l total).map admitOne := by
  induction l with
  | nil => intro total; rfl
  | cons e rest ih =>
    intro total
    rw [processImagesAux, admittedEnvs]
    by_cases ha : admissible cfg e
    · rw [if_pos ha, if_pos ha]
      by_cases hb : total + envSize e > cfg.maxPayloadBytes
      · rw [if_pos hb, if_pos hb]; exact ih total
      · rw [if_neg hb, if_neg hb]
        simp [ih (total + envSize e)]
    · rw [if_neg ha, if_neg ha]; exact ih total

/-- The admitted candidates form a sublist (subsequence) of the input. -/
theorem admittedEnvs_sublist (cfg : AdmissionConfig) (l : List ImageEnv) :
    ∀ total, List.Sublist (admittedEnvs cfg l total) l := by
  induction l with
  | nil => intro total; exact List.Sublist.refl []
  | cons e rest ih =>
    intro total
    rw [admittedEnvs]
    by_cases ha : admissible cfg e
    · rw [if_pos ha]
      by_cases hb : total + envSize e > cfg.maxPayloadBytes
      · rw [if_pos hb]; exact List.Sublist.cons e (ih total)
      · rw [if_neg hb]
        exact List.Sublist.cons₂ e (ih (total + envSize e))
    · rw [if_neg ha]; exact List.Sublist.cons e (ih total)

/-- Every admitted candidate passed the three pre-budget checks. -/
theorem admittedEnvs_admissible (cfg : AdmissionConfig) (l : List ImageEnv) :
    ∀ total e, e ∈ admittedEnvs cfg l total → admissible cfg e = true := by
  induction l with
  | nil => intro total e h; cases h
  | cons e0 rest ih =>
    intro total e h
    rw [admittedEnvs] at h
    by_cases ha : admissible cfg e0
    · rw [if_pos ha] at h
      by_cases hb : total + envSize e0 > cfg.maxPayloadBytes
      · rw [if_pos hb] at h; exact ih total e h
      · rw [if_neg hb] at h
        rcases List.mem_cons.mp h with h1 | h2
        · rw [h1]; exact ha
        · exact ih (total + envSize e0) e h2
    · rw [if_neg ha] at h; exact ih total e h

/-- Finding returns the head of the remainder after dropping the
non-matching prefix: first match in order wins. -/
theorem find?_eq_head?_dropWhile {α : Type} (p : α → Bool) (l : List α) :
    l.find? p = (l.dropWhile (fun a => !(p a))).head? := by
  induction l with
  | nil => rfl
  | cons c rest ih =>
    by_cases h : p c
    · simp [List.find?, List.dropWhile, h]
    · simp only [Bool.not_eq_true] at h
      simp [List.find?, List.dropWhile, h, ih]

/-- The keys of the placeholder object after one insertion: membership. -/
theorem insertEntry_keys_mem (m : List (String × String)) (e : String × String)
    (k : String) :
    (k ∈ (insertEntry m e).map Prod.fst) ↔ (k ∈ m.map Prod.fst ∨ k = e.1) := by
  induction m with
  | nil =>
    cases e with
    | mk k1 v1 => simp [insertEntry, eq_comm]
  | cons p rest ih =>
    cases p with
    | mk k0 v0 =>
      cases e with
      | mk k1 v1 =>
        by_cases h : k0 = k1
        · subst h
          simp only [insertEntry, if_pos rfl, ite_true, List.map_cons, List.mem_cons]
          tauto
        · rw [insertEntry, if_neg h]
          simp only [List.map_cons, List.mem_cons, ih]
          tauto

/-- One insertion keeps the key list duplicate-free. -/
theorem insertEntry_keys_nodup (m : List (String × String)) (e : String × String)
    (h : List.Nodup (m.map Prod.fst)) :
    List.Nodup ((insertEntry m e).map Prod.fst) := by
  induction m with
  | nil => cases e with | mk k1 v1 => simp [insertEntry]
  | cons p rest ih =>
    cases p with
    | mk k0 v0 =>
      cases e with
      | mk k1 v1 =>
        simp only [List.map_cons, List.nodup_cons] at h
        by_cases hk : k0 = k1
        · subst hk
          simp only [insertEntry, if_pos rfl, ite_true, List.map_cons, List.nodup_cons]
          exact ⟨h.1, h.2⟩
        · rw [insertEntry, if_neg hk]
          simp only [List.map_cons, List.nodup_cons]
          refine ⟨?_, ih h.2⟩
          intro hmem
          rcases (insertEntry_keys_mem rest (k1, v1) k0).mp hmem with h2 | h2
          · exact h.1 h2
          · exact hk h2

/-- Keys of the accumulated placeholder object: exactly the keys already
present plus the token texts folded in so far. -/
theorem foldl_insertEntry_keys (ms : List (String × String)) :
    ∀ (m : List (String × String)) (k : String),
      (k ∈ (ms.foldl insertEntry m).map Prod.fst) ↔
        (k ∈ m.map Prod.fst ∨ k ∈ ms.map Prod.fst) := by
  induction ms with
  | nil => intro m k; simp
  | cons e rest ih =>
    intro m k
    rw [List.foldl_cons]
    rw [ih (insertEntry m e) k, insertEntry_keys_mem]
    cases e with
    | mk k1 v1 =>
      simp only [List.map_cons, List.mem_cons]
      constructor
      · intro hh
        rcases hh with (hh | hh) | hh
        · exact Or.inl hh
        · exact Or.inr (Or.inl hh)
        · exact Or.inr (Or.inr hh)
      · intro hh
        rcases hh with hh | hh | hh
        · exact Or.inl (Or.inl hh)
        · exact Or.inl (Or.inr hh)
        · exact Or.inr hh

/-- Folding insertions preserves duplicate-freedom of the key list. -/
theorem foldl_insertEntry_nodup (ms : List (String × String)) :
    ∀ (m : List (String × String)), List.Nodup (m.map Prod.fst) →
      List.Nodup ((ms.foldl insertEntry m).map Prod.fst) := by
  induction ms with
  | nil => intro m h; exact h
  | cons e rest ih =>
    intro m h
    rw [List.foldl_cons]
    exact ih (insertEntry m e) (insertEntry_keys_nodup m e h)

/-! ## Claim theorems -/

/-- Claim C1: during the sequential admission pass, the cumulative
payload-size accumulator never exceeds the configured maximum total
budget at any iteration or at the end (any reachable accumulator value
at or below the budget stays at or below it), and a candidate whose
estimate added to the accumulator would exceed the budget is skipped with
the accumulator unchanged while evaluation continues with the later
candidates — pure greedy in order. -/
theorem admission_budget_invariant (cfg : AdmissionConfig) (envs : List ImageEnv)
    (e : ImageEnv) (rest : List ImageEnv) (total : Nat)
    (htotal : total ≤ cfg.maxPayloadBytes)
    (hadm : admissible cfg e = true)
    (hover : cfg.maxPayloadBytes < total + envSize e) :
    (processImagesAux cfg envs total).2 ≤ cfg.maxPayloadBytes ∧
    processImagesAux cfg (e :: rest) total = processImagesAux cfg rest total := by
  refine ⟨processImagesAux_total_le cfg envs total htotal, ?_⟩
  rw [processImagesAux, if_pos hadm, if_pos hover]

/-- Candidate used to instantiate the C1 theorem: passes all pre-budget
checks with a tiny payload. -/
def witnessEnvC1 : ImageEnv :=
  { detail := { url := "https://example.org/w1.png", altText := "w", title := "W1.png",
                license := "", attribution := "" }
    probe := ProbeResult.noLength
    payload := some ("AAAA") }

/-- Witness for C1 at the `app.js` configuration with the accumulator
already at the budget. -/
theorem admission_budget_invariant_witness :
    (processImagesAux appConfig [] (17 * 1024 * 1024)).2 ≤ appConfig.maxPayloadBytes ∧
    processImagesAux appConfig (witnessEnvC1 :: []) (17 * 1024 * 1024) =
      processImagesAux appConfig [] (17 * 1024 * 1024) :=
  admission_budget_invariant appConfig [] witnessEnvC1 [] (17 * 1024 * 1024)
    (by decide) (by decide) (by decide)

/-- Claim C2: the returned sequence has length at most the configured
maximum count and equals the `take`-prefix of the admitted images in
evaluation order; the admitted images are `admitOne` applied to a sublist
(subsequence) of the input, so insertion order is preserved and the
post-loop truncation keeps the prefix and discards the tail. -/
theorem admission_count_and_truncation (cfg : AdmissionConfig) (envs : List ImageEnv) :
    (processImages cfg envs).length ≤ cfg.maxImages ∧
    processImages cfg envs = ((processImagesAux cfg envs 0).1).take cfg.maxImages ∧
    (processImagesAux cfg envs 0).1 = (admittedEnvs cfg envs 0).map admitOne ∧
    List.Sublist (admittedEnvs cfg envs 0) envs := by
  refine ⟨?_, ?_, processImagesAux_fst_eq cfg envs 0, admittedEnvs_sublist cfg envs 0⟩
  · rw [processImages]
    by_cases h : (processImagesAux cfg envs 0).1.length > cfg.maxImages
    · rw [if_pos h, List.length_take]
      exact Nat.min_le_left _ _
    · rw [if_neg h]
      exact Nat.le_of_not_lt h
  · rw [processImages]
    by_cases h : (processImagesAux cfg envs 0).1.length > cfg.maxImages
    · rw [if_pos h]
    · rw [if_neg h, List.take_of_length_le (Nat.le_of_not_lt h)]

/-- A 2 MiB-of-characters base64 body: its estimated byte size is about
1.5 MiB, above the 1 MiB per-image ceiling of `app.js` but far below the
17 MiB total budget. -/
def bigPayloadStr : String := String.mk (List.replicate 2097152 ('A'))

/-- A candidate whose HEAD probe reports no Content-Length (the code
proceeds optimistically) and whose downloaded payload estimate exceeds
the per-image ceiling. -/
def bigEnvC3 : ImageEnv :=
  { detail := { url := "https://example.org/big.png", altText := "big", title := "Big.png",
                license := "", attribution := "" }
    probe := ProbeResult.noLength
    payload := some bigPayloadStr }

/-- The estimated size of the big payload. -/
theorem bigPayloadStr_estimate : estimateBase64Size bigPayloadStr = 1572864 := by
  rw [bigPayloadStr, estimateBase64Size_replicate 2097152 ('A') (by decide)]

/-- Counterexample to C3 as stated: with the `app.js` configuration, a
candidate whose size probe reports no Content-Length is admitted even
though its estimated payload size (1572864 bytes) exceeds the per-image
ceiling (1048576 bytes). -/
theorem admission_per_image_ceiling_cex :
    processImages appConfig [bigEnvC3] = [admitOne bigEnvC3] ∧
    appConfig.perImageLimitBytes < estimateBase64Size (admitOne bigEnvC3).base64 := by
  have hsz : envSize bigEnvC3 = 1572864 := by
    have hb : (bigEnvC3.payload).getD ("") = bigPayloadStr := rfl
    rw [envSize, hb, bigPayloadStr_estimate]
  have hadm : admissible appConfig bigEnvC3 = true := by decide
  have h1 : processImagesAux appConfig [bigEnvC3] 0 = ([admitOne bigEnvC3], 1572864) := by
    rw [processImagesAux, if_pos hadm,
        if_neg (by rw [hsz]; decide : ¬ (0 + envSize bigEnvC3 > appConfig.maxPayloadBytes))]
    rw [hsz]
    rfl
  constructor
  · rw [processImages, h1]
    norm_num [appConfig]
  · have hb : (admitOne bigEnvC3).base64 = bigPayloadStr := rfl
    rw [hb, bigPayloadStr_estimate]
    decide

/-- Claim C3 (amended): every image admitted by the pipeline passed
`checkImageSize`, so whenever its size probe reported a byte count, that
reported count is at most the configured per-image ceiling.  (The
estimated payload size itself is not bounded by the ceiling; see the
counterexample.) -/
theorem admission_probe_ceiling (cfg : AdmissionConfig) (envs : List ImageEnv)
    (total : Nat) (e : ImageEnv) (n : Nat)
    (hmem : e ∈ admittedEnvs cfg envs total)
    (hprobe : e.probe = ProbeResult.length n) :
    checkImageSize cfg e.probe = true ∧ n ≤ cfg.perImageLimitBytes := by
  have hadm := admittedEnvs_admissible cfg envs total e hmem
  rw [admissible] at hadm
  simp only [Bool.and_eq_true] at hadm
  refine ⟨hadm.1.2, ?_⟩
  have h := hadm.1.2
  rw [hprobe] at h
  simpa [checkImageSize] using h

/-- Candidate used to instantiate the C3 theorem: probe reports 1000
bytes, payload small. -/
def witnessEnvC3 : ImageEnv :=
  { detail := { url := "https://example.org/w3.png", altText := "w", title := "W3.png",
                license := "", attribution := "" }
    probe := ProbeResult.length 1000
    payload := some ("AAAA") }

/-- Witness for the amended C3 at the `app.js` configuration. -/
theorem admission_probe_ceiling_witness :
    checkImageSize appConfig witnessEnvC3.probe = true ∧
    1000 ≤ appConfig.perImageLimitBytes :=
  admission_probe_ceiling appConfig [witnessEnvC3] 0 witnessEnvC3 1000
    (by decide) (by decide)

/-- Claim C4: no entry of the final processed sequence has a URL ending
(case-insensitively) in `.gif` — every GIF candidate is skipped before
the budget check, so nothing with that format is admitted. -/
theorem no_gif_admitted (cfg : AdmissionConfig) (envs : List ImageEnv)
    (p : ProcessedImage) (hmem : p ∈ processImages cfg envs) :
    jsEndsWith (jsToLower p.url) (".gif") = false := by
  have h1 : p ∈ (processImagesAux cfg envs 0).1 := by
    rw [processImages] at hmem
    by_cases h : (processImagesAux cfg envs 0).1.length > cfg.maxImages
    · rw [if_pos h] at hmem
      exact List.take_subset _ _ hmem
    · rw [if_neg h] at hmem
      exact hmem
  rw [processImagesAux_fst_eq] at h1
  rcases List.mem_map.mp h1 with ⟨e, hemem, hpe⟩
  have hadm := admittedEnvs_admissible cfg envs 0 e hemem
  rw [admissible] at hadm
  simp only [Bool.and_eq_true, Bool.not_eq_true'] at hadm
  have hurl : p.url = e.detail.url := by rw [← hpe]; rfl
  rw [hurl]
  exact hadm.1.1

/-- Candidate used to instantiate the C4 theorem. -/
def witnessEnvC4 : ImageEnv :=
  { detail := { url := "https://example.org/w4.png", altText := "w", title := "W4.png",
                license := "", attribution := "" }
    probe := ProbeResult.noLength
    payload := some ("AAAA") }

/-- Witness for C4: a concrete admitted image whose URL is not a GIF. -/
theorem no_gif_admitted_witness :
    jsEndsWith (jsToLower (admitOne witnessEnvC4).url) (".gif") = false :=
  no_gif_admitted appConfig [witnessEnvC4] (admitOne witnessEnvC4) (by decide)

/-- Claim C5: the model-invocation control flow refines the specified
resilience contract (relay first when enabled, direct fallback on any
relay failure, immediate credential-required failure on the direct path
without a key, direct-only when the relay is disabled), and with an empty
key the result never depends on the direct network outcome — no direct
request is observable. -/
theorem model_invoker_contract :
    (∀ (up : Bool) (pr : CallResult) (key : String) (dr : CallResult),
      analyzeImagesCall up pr key dr = modelInvokerSpecPath up pr key dr) ∧
    (∀ (up : Bool) (pr : CallResult) (dr dr2 : CallResult),
      analyzeImagesCall up pr ("") dr = analyzeImagesCall up pr ("") dr2) := by
  constructor
  · intro up pr key dr
    cases up <;> cases pr <;>
      simp [analyzeImagesCall, modelInvokerSpecPath, directCall]
  · intro up pr dr dr2
    cases up <;> cases pr <;>
      simp [analyzeImagesCall, directCall]

/-- Search hit used in the C6 counterexample. -/
def gifCandidate : CandidateRef := { title := "File:Anim.gif", pageId := 1 }

/-- Detail-fetch outcome used in the C6 counterexample: every candidate
resolves to a GIF image, which the admission pipeline always rejects. -/
def gifEnvC6 : ImageEnv :=
  { detail := { url := "https://example.org/anim.gif", altText := "", title := "Anim.gif",
                license := "", attribution := "" }
    probe := ProbeResult.noLength
    payload := some ("data:image/gif;base64,QUJDRA==") }

/-- The fetch oracle of the C6 counterexample. -/
def gifFetch : CandidateRef → Option ImageEnv := fun _ => some gifEnvC6

/-- The fetch oracle returning no detail for any candidate. -/
def noFetch : CandidateRef → Option ImageEnv := fun _ => none

/-- Counterexample to C6 as stated: search returns one candidate, the
admission pipeline rejects it (GIF), yet the run does not abort with the
no-images error — the vision model is invoked with an empty image list. -/
theorem run_empty_admission_cex :
    processQuestionRun appConfig [[gifCandidate]] gifFetch ("answer") =
      RunResult.answered [] ("answer") ∧
    processQuestionRun appConfig [[gifCandidate]] gifFetch ("answer") ≠
      RunResult.error noImagesMsg := by
  decide

/-- Claim C6 (amended): the run aborts with the no-images error exactly
when the flattened search results are empty (zero candidates from
search); when search found at least one candidate the vision model is
invoked on whatever survives detail fetch and admission, possibly zero
images. -/
theorem run_no_images_error_iff (cfg : AdmissionConfig) (hcap : 0 < cfg.searchCap)
    (searchResults : List (List CandidateRef))
    (fetchEnv : CandidateRef → Option ImageEnv) (modelReply : String) :
    (processQuestionRun cfg searchResults fetchEnv modelReply = RunResult.error noImagesMsg ↔
      searchResults.flatten = []) ∧
    (searchResults.flatten = [] ∨
      processQuestionRun cfg searchResults fetchEnv modelReply =
        RunResult.answered (processImages cfg (pipelineEnvs cfg searchResults fetchEnv))
          modelReply) := by
  have hlen : ((cappedResults cfg searchResults).length = 0) ↔
      searchResults.flatten = [] := by
    rw [cappedResults]
    by_cases h : searchResults.flatten.length > cfg.searchCap
    · rw [if_pos h, List.length_take]
      constructor
      · intro h0
        rcases Nat.min_eq_zero_iff.mp h0 with hc | hl
        · omega
        · exact List.length_eq_zero.mp hl
      · intro h0
        rw [h0] at h
        simp at h
    · rw [if_neg h]
      exact List.length_eq_zero
  constructor
  · constructor
    · intro heq
      by_cases h0 : (cappedResults cfg searchResults).length = 0
      · exact hlen.mp h0
      · rw [processQuestionRun, if_neg h0] at heq
        cases heq
    · intro hflat
      rw [processQuestionRun, if_pos (hlen.mpr hflat)]
  · by_cases h0 : (cappedResults cfg searchResults).length = 0
    · exact Or.inl (hlen.mp h0)
    · exact Or.inr (by rw [processQuestionRun, if_neg h0])

/-- Witness for the amended C6: with no search results at all, the run
aborts with the no-images error. -/
theorem run_no_images_error_iff_witness :
    (processQuestionRun appConfig [] noFetch ("a") = RunResult.error noImagesMsg ↔
      ([] : List (List CandidateRef)).flatten = []) ∧
    (([] : List (List CandidateRef)).flatten = [] ∨
      processQuestionRun appConfig [] noFetch ("a") =
        RunResult.answered (processImages appConfig (pipelineEnvs appConfig [] noFetch)) ("a")) :=
  run_no_images_error_iff appConfig (by decide) [] noFetch ("a")

/-- Processed image used in the C7 examples and witness. -/
def dogImage : ProcessedImage :=
  { url := "https://example.org/dog.png", altText := "a dog", title := "dog.png",
    license := "CC0", attribution := "", base64 := "data:image/png;base64,QUJDRA==" }

/-- Second processed image used in the C7 examples. -/
def catImage : ProcessedImage :=
  { url := "https://example.org/cat.png", altText := "a cat", title := "cat.png",
    license := "CC0", attribution := "", base64 := "data:image/png;base64,QUJDRA==" }

/-- Processed image whose title strictly contains a token filename. -/
def goldenImage : ProcessedImage :=
  { url := "https://example.org/golden.png", altText := "a dog", title := "golden_retriever_dog.png",
    license := "CC0", attribution := "", base64 := "data:image/png;base64,QUJDRA==" }

/-- Claim C7: placeholder resolution searches the processed sequence in
order and the first entry whose title matches (exact equality,
containment either way, or extension-stripped equality, on the
lowercased/trimmed forms) wins — `find?` equals the head of the list
after dropping the non-matching prefix; when no entry matches, the
substitution step leaves the text unchanged, so the dangling token stays
verbatim.  The two concrete conjuncts are the specified examples:
`Dog.PNG` resolves against title `dog.png`, and `golden_retriever`
resolves against title `golden_retriever_dog.png` by containment. -/
theorem placeholder_resolution_first_match (ps : List ProcessedImage)
    (fn text tok : String) :
    findMatchingImage ps fn =
      (ps.dropWhile (fun img => !(imageTitleMatches img.title fn))).head? ∧
    (findMatchingImage ps fn = none → applyPlaceholder ps text (tok, fn) = text) ∧
    findMatchingImage [dogImage, catImage] ("Dog.PNG") = some dogImage ∧
    findMatchingImage [goldenImage] ("golden_retriever") = some goldenImage := by
  refine ⟨find?_eq_head?_dropWhile _ ps, ?_, by decide, by decide⟩
  intro hnone
  simp [applyPlaceholder, hnone]

/-- Witness for C7: a filename matching no processed image leaves the
text unchanged. -/
theorem placeholder_resolution_first_match_witness :
    applyPlaceholder [dogImage] ("some text") ("[[[zzz]]]", "zzz") = "some text" :=
  (placeholder_resolution_first_match [dogImage] ("zzz") ("some text") ("[[[zzz]]]")).2.1
    (by decide)

/-- Processed image matching the repeated token of the C8 counterexample. -/
def xImage : ProcessedImage :=
  { url := "https://example.org/x.png", altText := "x", title := "x",
    license := "", attribution := "", base64 := "data:image/png;base64,QUJDRA==" }

/-- Counterexample to C8 as stated: with the same token text occurring
twice and a matching image, only the first textual occurrence is
substituted; the second identical token remains verbatim in the output,
so duplicate identical tokens do not resolve identically. -/
theorem placeholder_duplicate_token_cex :
    formatResponse ("a[[[x]]]b[[[x]]]") [xImage] =
      "a" ++ imgTag xImage ++ "b[[[x]]]" ∧
    jsIncludes (formatResponse ("a[[[x]]]b[[[x]]]") [xImage]) ("[[[x]]]") = true ∧
    jsIncludes (imgTag xImage) ("[[[x]]]") = false := by
  decide

/-- Claim C8 (amended): extraction builds exactly one mapping entry per
distinct token text regardless of repeats (the key list of the
placeholder map is duplicate-free and its keys are exactly the extracted
token texts), and on reply text with zero tokens the
extraction-plus-substitution step returns the text unchanged.
Substitution replaces only the first textual occurrence of each distinct
token; later duplicate occurrences stay verbatim (see the
counterexample). -/
theorem placeholder_extraction_map (reply : String) (ps : List ProcessedImage)
    (k : String) :
    List.Nodup ((buildPlaceholderMap (extractTokens reply.toList)).map Prod.fst) ∧
    ((k ∈ (buildPlaceholderMap (extractTokens reply.toList)).map Prod.fst) ↔
      (k ∈ (extractTokens reply.toList).map Prod.fst)) ∧
    (extractTokens reply.toList = [] → formatResponse reply ps = reply) := by
  refine ⟨?_, ?_, ?_⟩
  · exact foldl_insertEntry_nodup _ [] (by simp)
  · have h := foldl_insertEntry_keys (extractTokens reply.toList) [] k
    simpa [buildPlaceholderMap] using h
  · intro h
    rw [formatResponse, h]
    rfl

/-- Witness for the amended C8 on a token-free reply. -/
theorem placeholder_extraction_map_witness :
    List.Nodup ((buildPlaceholderMap (extractTokens ("hello").toList)).map Prod.fst) ∧
    ((("q") ∈ (buildPlaceholderMap (extractTokens ("hello").toList)).map Prod.fst) ↔
      (("q") ∈ (extractTokens ("hello").toList).map Prod.fst)) ∧
    formatResponse ("hello") [] = "hello" :=
  ⟨(placeholder_extraction_map ("hello") [] ("q")).1,
   (placeholder_extraction_map ("hello") [] ("q")).2.1,
   (placeholder_extraction_map ("hello") [] ("q")).2.2 (by decide)⟩

/-- Counterexample to C9 as stated: a reply body consisting of a single
comma parses to two terms, both empty — the produced sequence can
contain empty strings. -/
theorem search_terms_empty_term_cex :
    getSearchTermsCall true (CallResult.ok (",")) ("") (CallResult.fail ("e")) =
      TermsOutcome.success ["", ""] ∧
    ("") ∈ parseSearchTerms (",") := by
  decide

/-- Claim C9 (amended): whenever `getSearchTerms` succeeds, the returned
sequence was obtained by splitting the reply body on commas and trimming
each piece, and it always contains at least one term; terms are not
guaranteed to be non-empty (see the counterexample). -/
theorem search_terms_nonempty_list (up : Bool) (pr : CallResult) (key : String)
    (dr : CallResult) (terms : List String)
    (h : getSearchTermsCall up pr key dr = TermsOutcome.success terms) :
    1 ≤ terms.length := by
  rw [getSearchTermsCall] at h
  cases hres : analyzeImagesCall up pr key dr with
  | success body =>
    rw [hres] at h
    cases h
    rw [parseSearchTerms, jsSplit, List.length_map, List.length_map]
    have hne := splitChars_ne_nil (Char.ofNat 44) (jsTrim body).toList
    exact List.length_pos.mpr hne
  | keyMissing =>
    rw [hres] at h
    cases h
  | apiError m =>
    rw [hres] at h
    cases h

/-- Witness for the amended C9: a two-term reply. -/
theorem search_terms_nonempty_list_witness :
    1 ≤ (parseSearchTerms ("a,b")).length :=
  search_terms_nonempty_list true (CallResult.ok ("a,b")) ("") (CallResult.fail ("x"))
    (parseSearchTerms ("a,b")) (by decide)

/-- A 200-character derived description: the code appends an ellipsis to
it although nothing was truncated. -/
def alt200 : String := String.mk (List.replicate 200 ('a'))

/-- Metadata bag whose derived alt text is exactly 200 characters. -/
def bag200 : MetaBag :=
  { imageDescription := some alt200, objectName := none, categories := none }

/-- Counterexample to C10 as stated: a derived text of exactly 200
characters (hence 200 characters or shorter, with no truncation) is
returned with the ellipsis marker appended. -/
theorem alt_text_exact200_cex :
    getImageDetailsAltText bag200 ("File:T.png") = alt200 ++ "..." ∧
    getImageDetailsAltText bag200 ("File:T.png") ≠ alt200 := by
  decide

/-- Claim C10 (amended): the alt text equals the trimmed priority-chain
text when that text is shorter than 200 characters, and its first 200
characters followed by the ellipsis marker when it has 200 characters or
more — so the ellipsis appears exactly when the trimmed derived text has
length at least 200, including the untruncated exact-200 case. -/
theorem alt_text_truncation (md : MetaBag) (imageTitle : String) :
    getImageDetailsAltText md imageTitle =
      (if 200 ≤ (jsTrim (chainAltText md imageTitle)).toList.length then
        String.mk ((jsTrim (chainAltText md imageTitle)).toList.take 200) ++ "..."
      else jsTrim (chainAltText md imageTitle)) := by
  rw [getImageDetailsAltText]
  simp only [truncateAltText]
  by_cases h : 200 ≤ (jsTrim (chainAltText md imageTitle)).toList.length
  · rw [if_pos h]
    have hl : ((jsTrim (chainAltText md imageTitle)).toList.take 200).length = 200 := by
      rw [List.length_take]
      omega
    rw [if_pos hl]
  · rw [if_neg h]
    have hlt : ((jsTrim (chainAltText md imageTitle)).toList.take 200).length ≠ 200 := by
      rw [List.length_take]
      omega
    rw [if_neg hlt,
        List.take_of_length_le (by omega :
          (jsTrim (chainAltText md imageTitle)).toList.length ≤ 200)]
    rfl
